import Mathlib

/-!
Shallow embedding of the `whos-done-that` CLI (src/main.rs), a tool that
aggregates per-author git contribution statistics.  Strings are modelled as
lists of characters (`Str`); note that for UTF-8 encoded text, byte-wise
lexicographic order on the encoding coincides with code-point lexicographic
order, so Rust's byte-wise `String` ordering is modelled by the
lexicographic order on `List Char`.  Subprocess execution is modelled by
passing the captured result (exit status, stdout, stderr) explicitly.
-/

namespace WhosDoneThat

/-- Strings are modelled as lists of characters. -/
abbrev Str := List Char

/-- Coercion from Lean string literals into the model's string type. -/
def str (s : String) : Str := s.data

/-- The captured result of running a subprocess: whether the exit status was
a success, plus the captured stdout and stderr texts (assumed valid UTF-8;
`String::from_utf8(...).unwrap_or_default()` on the Rust side). -/
structure SubprocessOutput where
  success : Bool
  stdout : Str
  stderr : Str
deriving DecidableEq

/-- The error taxonomy reachable from the embedded functions: the subprocess
exited non-zero (`eyre::bail!("Failed to run '{command}'")`, carrying the
command string), or strict numeric parsing failed (the `with_suggestion`
annotated error in `get_num_author_commits`, also carrying the command). -/
inductive RunError where
  | subprocessError (command : Str)
  | parseError (command : Str)
deriving DecidableEq

/-- Embeds the trailing-newline strip in `get_stdout_from_subprocess_or_fail`
(src/main.rs lines 220-223): `if stdout.ends_with('\n') { stdout.pop(); }`. -/
def stripOneTrailingNewline (s : Str) : Str :=
  if s.getLast? = some '\n' then s.dropLast else s

/-- Embeds `get_stdout_from_subprocess_or_fail` (src/main.rs lines 208-226):
on non-zero exit, log stderr and fail with an error carrying the command; on
success return stdout with at most one trailing newline stripped.  The
subprocess result is passed in explicitly. -/
def get_stdout_from_subprocess_or_fail (command : Str) (result : SubprocessOutput) :
    Except RunError Str :=
  if result.success then
    .ok (stripOneTrailingNewline result.stdout)
  else
    .error (.subprocessError command)

/-- Rust's `char::is_ascii_whitespace`: space, horizontal tab, newline,
carriage return, or form feed. -/
def isRustAsciiWhitespace (c : Char) : Bool :=
  c = ' ' || c = '\t' || c = '\n' || c = '\r' || c = '\x0C'

/-- Accumulator-based splitting on runs of ASCII whitespace; the accumulator
holds the characters of the current token in reverse. -/
def splitAsciiWhitespaceAux : Str → Str → List Str
  | [], acc => if acc = [] then [] else [acc.reverse]
  | c :: cs, acc =>
    if isRustAsciiWhitespace c then
      if acc = [] then splitAsciiWhitespaceAux cs []
      else acc.reverse :: splitAsciiWhitespaceAux cs []
    else splitAsciiWhitespaceAux cs (c :: acc)

/-- Rust's `str::split_ascii_whitespace`: the maximal runs of
non-whitespace characters, in order; no empty tokens are produced. -/
def splitAsciiWhitespace (s : Str) : List Str := splitAsciiWhitespaceAux s []

/-- Splits a character list at every newline character; the result always has
one more entry than the number of newlines (so a trailing newline produces a
trailing empty entry). -/
def splitNl : Str → List Str
  | [] => [[]]
  | c :: cs =>
    if c = '\n' then [] :: splitNl cs
    else
      match splitNl cs with
      | [] => [[c]]
      | l :: ls => (c :: l) :: ls

/-- Removes one trailing carriage return, as Rust's `str::lines` does on each
line. -/
def stripTrailingCr (l : Str) : Str :=
  if l.getLast? = some '\r' then l.dropLast else l

/-- Rust's `str::lines`: split on newline characters treated as terminators
(a final newline does not open an extra empty line; the empty string has no
lines), stripping one trailing carriage return from each line. -/
def rustLines (s : Str) : List Str :=
  if s = [] then []
  else
    (if s.getLast? = some '\n' then (splitNl s).dropLast else splitNl s).map
      stripTrailingCr

/-- Decides whether a character is an ASCII decimal digit. -/
def isAsciiDigit (c : Char) : Bool := '0' ≤ c && c ≤ '9'

/-- Numeric value of an ASCII digit character. -/
def digitVal (c : Char) : Nat := c.toNat - '0'.toNat

/-- Reads a run of decimal digits left to right, accumulating the value;
fails on the first non-digit character. -/
def parseDigitsAux : Str → Nat → Option Nat
  | [], acc => some acc
  | c :: cs, acc =>
    if isAsciiDigit c then parseDigitsAux cs (acc * 10 + digitVal c)
    else none

/-- Rust's `str::parse::<usize>` (on a 64-bit target): an optional leading
plus sign followed by a nonempty run of ASCII digits whose value fits in 64
bits; anything else (empty string, stray characters, overflow) fails. -/
def parseUsize (s : Str) : Option Nat :=
  let body : Str :=
    match s with
    | '+' :: rest => rest
    | _ => s
  if body = [] then none
  else
    match parseDigitsAux body 0 with
    | some v => if v < 2 ^ 64 then some v else none
    | none => none

/-- Modelled from the spec: section 4.1 (Shell Argument Escaper) describes the
escaping performed by the shell_quote crate's Bash quoting, an external
dependency whose source is not under src/.  Characters outside this safe set
(in particular every metacharacter the spec lists: quotes, backtick, dollar,
semicolon, ampersand, whitespace) force quoting. -/
def isBashSafeChar (c : Char) : Bool :=
  c.isAlphanum || c = '-' || c = '_' || c = '=' || c = '/' || c = ',' ||
    c = '.' || c = '+' || c = ':' || c = '@' || c = '%'

/-- Modelled from the spec: the per-character escape used inside Bash ANSI-C
quoting by the shell_quote crate (external dependency, not under src/):
backslash and single quote are backslash-escaped, a newline becomes a
backslash-n sequence, and other characters stand for themselves. -/
def ansiCEscape (c : Char) : Str :=
  if c = '\\' then ['\\', '\\']
  else if c = '\'' then ['\\', '\'']
  else if c = '\n' then ['\\', 'n']
  else [c]

/-- Modelled from the spec: the shell_quote crate's `Bash::quote_vec`
(external dependency, not under src/), which section 4.1 specifies must turn
an arbitrary string into a token the shell reads back literally: an empty
string becomes a pair of single quotes, a string of unambiguously safe
characters passes through unchanged, and anything else is wrapped in Bash
ANSI-C quoting. -/
def bashQuote (s : Str) : Str :=
  if s = [] then ['\'', '\'']
  else if s.all isBashSafeChar then s
  else '$' :: '\'' :: (s.map ansiCEscape).flatten ++ ['\'']

/-- Embeds the command construction in `get_all_authors` (src/main.rs lines
117-121): the branch is Bash-quoted, the target directory is interpolated
via `Path::display` with no escaping. -/
def get_all_authors_command (target_dir branch_name : Str) : Str :=
  str "git -C " ++ target_dir ++
    str " shortlog --summary --numbered --no-merges --all --branches=" ++
    bashQuote branch_name

/-- Embeds the per-line author extraction in `get_all_authors` (src/main.rs
lines 126-135): split the line on ASCII whitespace, discard the leading
count token (the token at index 0), and rejoin the remaining tokens with
single spaces. -/
def lineAuthor (l : Str) : Str :=
  List.intercalate (str " ") ((splitAsciiWhitespace l).drop 1)

/-- Embeds the pure part of `get_all_authors` (src/main.rs lines 124-141)
applied to the captured summary stdout: extract one author entry per line
(the closure always returns `Some`, so `filter_map` is a plain map), then
sort.  Rust's `Vec::sort` is a stable sort wrt byte-wise string order, which
on UTF-8 text coincides with the lexicographic order on `List Char`; since
sortedness, stability and being a permutation determine the output uniquely,
`List.insertionSort` (which has those three properties) is an exact model. -/
def get_all_authors_from_stdout (stdout : Str) : List Str :=
  List.insertionSort (· ≤ ·) ((rustLines stdout).map lineAuthor)

/-- Embeds `get_all_authors` (src/main.rs lines 116-142) with the subprocess
result passed explicitly. -/
def get_all_authors (target_dir branch_name : Str) (result : SubprocessOutput) :
    Except RunError (List Str) :=
  match get_stdout_from_subprocess_or_fail
      (get_all_authors_command target_dir branch_name) result with
  | .error e => .error e
  | .ok stdout => .ok (get_all_authors_from_stdout stdout)

/-- Embeds the command construction in `get_num_author_commits` (src/main.rs
lines 151-157): author and branch are Bash-quoted, the target directory is
interpolated via `Path::display` with no escaping. -/
def get_num_author_commits_command (author target_dir branch_name : Str) : Str :=
  str "git -C " ++ target_dir ++ str " rev-list HEAD --author=" ++
    bashQuote author ++ str " --count --branches=" ++ bashQuote branch_name

/-- Embeds `get_num_author_commits` (src/main.rs lines 146-165): run the
revision-count query, then strictly parse the whole remaining stdout as a
usize; a parse failure is an error annotated with the offending command. -/
def get_num_author_commits (author target_dir branch_name : Str)
    (result : SubprocessOutput) : Except RunError Nat :=
  let command := get_num_author_commits_command author target_dir branch_name
  match get_stdout_from_subprocess_or_fail command result with
  | .error e => .error e
  | .ok stdout =>
    match parseUsize stdout with
    | some n => .ok n
    | none => .error (.parseError command)

/-- Embeds `CodeEdits` (src/main.rs lines 32-35). -/
structure CodeEdits where
  additions : Nat
  removals : Nat
deriving DecidableEq

/-- Embeds `AuthorData` (src/main.rs lines 37-41). -/
structure AuthorData where
  author_name : Str
  code_edits : CodeEdits
  num_commits : Nat
deriving DecidableEq

/-- Embeds the per-line body of the `for_each` in `get_num_author_edits`
(src/main.rs lines 186-195): the first whitespace-separated token, when
present, contributes its lenient usize parse (zero on failure) to the
additions; the second token likewise to the removals. -/
def addLineEdits (acc : CodeEdits) (l : Str) : CodeEdits :=
  let tokens := splitAsciiWhitespace l
  let acc1 :=
    match tokens[0]? with
    | some t => { acc with additions := acc.additions + (parseUsize t).getD 0 }
    | none => acc
  match tokens[1]? with
  | some t => { acc1 with removals := acc1.removals + (parseUsize t).getD 0 }
  | none => acc1

/-- Embeds the parsing part of `get_num_author_edits` (src/main.rs lines
183-202) applied to the captured diff-stat stdout: fold the lenient per-line
accumulation over all lines, starting from zero totals. -/
def get_num_author_edits_from_stdout (stdout : Str) : CodeEdits :=
  (rustLines stdout).foldl addLineEdits ⟨0, 0⟩

/-- Embeds the command construction in `get_num_author_edits` (src/main.rs
lines 174-180): author and branch are Bash-quoted, the target directory is
interpolated via `Path::display` with no escaping. -/
def get_num_author_edits_command (author target_dir branch_name : Str) : Str :=
  str "git -C " ++ target_dir ++ str " log --author=" ++ bashQuote author ++
    str " --numstat --pretty=tformat: --branches=" ++ bashQuote branch_name ++
    str " --all"

/-- Embeds `get_num_author_edits` (src/main.rs lines 169-203) with the
subprocess result passed explicitly. -/
def get_num_author_edits (author target_dir branch_name : Str)
    (result : SubprocessOutput) : Except RunError CodeEdits :=
  match get_stdout_from_subprocess_or_fail
      (get_num_author_edits_command author target_dir branch_name) result with
  | .error e => .error e
  | .ok stdout => .ok (get_num_author_edits_from_stdout stdout)

/-- Embeds the aggregation loop of `main` (src/main.rs lines 78-86): for each
author in order, query the commit count, then the edit stats (each `?`
aborting the whole loop on error), and push one record.  The two metric
queries are passed as oracles, one result per author name. -/
def compileStats (authors : List Str)
    (commits : Str → Except RunError Nat)
    (edits : Str → Except RunError CodeEdits) :
    Except RunError (List AuthorData) :=
  match authors with
  | [] => .ok []
  | author :: rest =>
    match commits author with
    | .error e => .error e
    | .ok num_commits =>
      match edits author with
      | .error e => .error e
      | .ok code_edits =>
        match compileStats rest commits edits with
        | .error e => .error e
        | .ok tail =>
          .ok ({ author_name := author, code_edits := code_edits,
                 num_commits := num_commits } :: tail)

/-- The ordering used by the sort in `main` (src/main.rs line 87): the
comparator `a.num_commits.cmp(&b.num_commits).reverse()` places `a` no later
than `b` exactly when it does not return `Greater`, i.e. exactly when
`b.num_commits ≤ a.num_commits`. -/
def byCommitsDesc (a b : AuthorData) : Prop :=
  b.num_commits ≤ a.num_commits

instance : DecidableRel byCommitsDesc :=
  fun a b => Nat.decLe b.num_commits a.num_commits

instance : IsTotal AuthorData byCommitsDesc :=
  ⟨fun a b => (Nat.le_total a.num_commits b.num_commits).symm⟩

instance : IsTrans AuthorData byCommitsDesc :=
  ⟨fun _ _ _ hab hbc => Nat.le_trans hbc hab⟩

/-- Embeds the sort in `main` (src/main.rs line 87):
`sort_by(|a, b| a.num_commits.cmp(&b.num_commits).reverse())`.  Rust's
`sort_by` is a stable sort wrt the comparator.  Sortedness, stability and
being a permutation determine the output uniquely, so `List.insertionSort`
(which has those three properties, proved below) is an exact model. -/
def sortAuthorsData (l : List AuthorData) : List AuthorData :=
  List.insertionSort byCommitsDesc l

/-- Following the claim's words (for comparison with the embedded lenient
parser): the additions contribution of one diff-stat line is its first
whitespace-separated token parsed as an unsigned integer, and zero when the
token is missing or does not parse. -/
def firstTokenVal (l : Str) : Nat :=
  match (splitAsciiWhitespace l)[0]? with
  | some t => (parseUsize t).getD 0
  | none => 0

/-- Following the claim's words (for comparison with the embedded lenient
parser): the removals contribution of one diff-stat line is its second
whitespace-separated token parsed as an unsigned integer, and zero when the
token is missing or does not parse. -/
def secondTokenVal (l : Str) : Nat :=
  match (splitAsciiWhitespace l)[1]? with
  | some t => (parseUsize t).getD 0
  | none => 0

/-- Embeds `impl Display for CodeEdits` (src/main.rs lines 43-51). -/
def codeEditsDisplay (ce : CodeEdits) : Str :=
  str (Nat.repr ce.additions) ++ str " additions and " ++
    str (Nat.repr ce.removals) ++ str " removals"

/-- Embeds the `ending` match in `main` (src/main.rs lines 94-100): zero
commits means the record is skipped (`continue`), one commit renders the
singular form, anything else the plural form. -/
def commitsEnding (num_commits : Nat) : Option Str :=
  match num_commits with
  | 0 => none
  | 1 => some (str "1 commit")
  | n => some (str (Nat.repr n) ++ str " commits")

/-- Embeds the per-record rendering in `main` (src/main.rs lines 93-107):
either no output line (zero commits) or the single formatted line written by
`writeln!`. -/
def renderAuthorLine (a : AuthorData) : Option Str :=
  (commitsEnding a.num_commits).map (fun ending =>
    a.author_name ++ str " has made " ++ ending ++ str ": " ++
      codeEditsDisplay a.code_edits)

lemma dropLast_append_getLast {s : Str} {c : Char} (h : s.getLast? = some c) :
    s.dropLast ++ [c] = s := by
  cases s with
  | nil => simp at h
  | cons a t =>
    rw [List.getLast?_eq_getLast (a :: t) (by simp)] at h
    rw [Option.some_inj] at h
    rw [← h]
    exact List.dropLast_append_getLast (by simp)

/-- C7: on a zero-exit subprocess, the runner returns the captured stdout text
with exactly one trailing newline removed when the text ends in a newline
(removing nothing else: appending the newline back recovers the original
text), and returns the text unchanged otherwise. -/
theorem c7_runner_strips_at_most_one_trailing_newline
    (command : Str) (result : SubprocessOutput) (hs : result.success = true) :
    (result.stdout.getLast? = some '\n' →
      get_stdout_from_subprocess_or_fail command result = .ok result.stdout.dropLast ∧
      result.stdout.dropLast ++ ['\n'] = result.stdout) ∧
    (result.stdout.getLast? ≠ some '\n' →
      get_stdout_from_subprocess_or_fail command result = .ok result.stdout) := by
  constructor
  · intro h
    constructor
    · simp [get_stdout_from_subprocess_or_fail, hs, stripOneTrailingNewline, h]
    · exact dropLast_append_getLast h
  · intro h
    simp [get_stdout_from_subprocess_or_fail, hs, stripOneTrailingNewline, h]

/-- Witness for C7 at concrete inputs: stdout "out\n" is returned as "out",
and stdout "out" (no trailing newline) is returned unchanged. -/
theorem c7_runner_strips_at_most_one_trailing_newline_witness :
    (get_stdout_from_subprocess_or_fail (str "git") ⟨true, str "out\n", str ""⟩ =
        .ok (str "out\n").dropLast ∧
      (str "out\n").dropLast ++ ['\n'] = str "out\n") ∧
    get_stdout_from_subprocess_or_fail (str "git") ⟨true, str "out", str ""⟩ =
      .ok (str "out") := by
  constructor
  · exact (c7_runner_strips_at_most_one_trailing_newline (str "git")
      ⟨true, str "out\n", str ""⟩ rfl).1 (by decide)
  · exact (c7_runner_strips_at_most_one_trailing_newline (str "git")
      ⟨true, str "out", str ""⟩ rfl).2 (by decide)

/-- C8: on a non-zero-exit subprocess, the runner fails with the error carrying
the command string, never returns any stdout, and the outcome is independent of
the captured stderr (stderr is only logged, never part of any result). -/
theorem c8_runner_fails_on_nonzero_exit
    (command : Str) (result : SubprocessOutput) (hf : result.success = false) :
    get_stdout_from_subprocess_or_fail command result =
      .error (.subprocessError command) ∧
    (∀ out : Str, get_stdout_from_subprocess_or_fail command result ≠ .ok out) ∧
    (∀ e : Str, get_stdout_from_subprocess_or_fail command
        ⟨result.success, result.stdout, e⟩ =
      get_stdout_from_subprocess_or_fail command result) := by
  refine ⟨?_, ?_, ?_⟩
  · simp [get_stdout_from_subprocess_or_fail, hf]
  · intro out
    simp [get_stdout_from_subprocess_or_fail, hf]
  · intro e
    simp [get_stdout_from_subprocess_or_fail]

/-- Witness for C8 at a concrete input: a failed run with nonempty stdout and
stderr yields the subprocess error carrying the command. -/
theorem c8_runner_fails_on_nonzero_exit_witness :
    get_stdout_from_subprocess_or_fail (str "git status")
        ⟨false, str "junk", str "fatal"⟩ =
      .error (.subprocessError (str "git status")) :=
  (c8_runner_fails_on_nonzero_exit (str "git status")
    ⟨false, str "junk", str "fatal"⟩ rfl).1




lemma addLineEdits_eq (acc : CodeEdits) (l : Str) :
    addLineEdits acc l =
      ⟨acc.additions + firstTokenVal l, acc.removals + secondTokenVal l⟩ := by
  unfold addLineEdits firstTokenVal secondTokenVal
  cases h : splitAsciiWhitespace l with
  | nil => simp
  | cons t0 rest =>
    cases rest with
    | nil => simp
    | cons t1 rest2 => simp

lemma foldl_addLineEdits (ls : List Str) (acc : CodeEdits) :
    ls.foldl addLineEdits acc =
      ⟨acc.additions + (ls.map firstTokenVal).sum,
       acc.removals + (ls.map secondTokenVal).sum⟩ := by
  induction ls generalizing acc with
  | nil => simp
  | cons l ls ih =>
    rw [List.foldl_cons, addLineEdits_eq, ih]
    simp [Nat.add_assoc]

/-- C3: the lenient edit-stats parser is total (in particular it never
produces a strict-parse error): on every captured diff-stat stdout it
returns the sum over all lines of the first whitespace-separated token
leniently parsed as an unsigned integer (zero when missing or non-numeric)
as the additions, the analogous sum over second tokens as the removals, and
a binary placeholder row contributes zero to both fields. -/
theorem c3_lenient_edit_stats_never_fail
    (author target_dir branch_name : Str) (result : SubprocessOutput) :
    (∀ stdout : Str,
      get_num_author_edits_from_stdout stdout =
        ⟨((rustLines stdout).map firstTokenVal).sum,
         ((rustLines stdout).map secondTokenVal).sum⟩) ∧
    (∀ c : Str,
      get_num_author_edits author target_dir branch_name result ≠
        .error (.parseError c)) ∧
    get_num_author_edits_from_stdout (str "-\t-\tbinary.png") = ⟨0, 0⟩ := by
  refine ⟨?_, ?_, by decide⟩
  · intro stdout
    unfold get_num_author_edits_from_stdout
    rw [foldl_addLineEdits]
    simp
  · intro c
    unfold get_num_author_edits
    cases h : get_stdout_from_subprocess_or_fail
        (get_num_author_edits_command author target_dir branch_name) result with
    | ok stdout => simp
    | error e =>
      unfold get_stdout_from_subprocess_or_fail at h
      by_cases hs : result.success = true
      · simp [hs] at h
      · simp [hs] at h
        simp [← h]

/-- Witness for C3 at concrete inputs: the spec-side per-line sums evaluate
on the two-line diff-stat text with a binary placeholder row, and the full
operation on a failing subprocess is not a parse error. -/
theorem c3_lenient_edit_stats_never_fail_witness :
    get_num_author_edits_from_stdout (str "10\t5\n-\t-\tbinary.png") =
      ⟨((rustLines (str "10\t5\n-\t-\tbinary.png")).map firstTokenVal).sum,
       ((rustLines (str "10\t5\n-\t-\tbinary.png")).map
         secondTokenVal).sum⟩ ∧
    get_num_author_edits (str "Alice") (str "/repo") (str "main")
        ⟨false, str "", str "oops"⟩ ≠
      .error (.parseError (str "x")) :=
  ⟨(c3_lenient_edit_stats_never_fail (str "Alice") (str "/repo") (str "main")
      ⟨false, str "", str "oops"⟩).1 (str "10\t5\n-\t-\tbinary.png"),
   (c3_lenient_edit_stats_never_fail (str "Alice") (str "/repo") (str "main")
      ⟨false, str "", str "oops"⟩).2.1 (str "x")⟩

/-- C4: given a zero-exit commit-count subprocess, the operation returns a
number exactly when the retained stdout text (the captured text with one
trailing newline stripped) strictly parses as an unsigned integer (and the
number is that parse), and fails with the parse error annotated with the
offending command string exactly when the text does not so parse. -/
theorem c4_strict_commit_count_parse
    (author target_dir branch_name : Str) (result : SubprocessOutput)
    (hs : result.success = true) :
    (∀ n : Nat,
      get_num_author_commits author target_dir branch_name result = .ok n ↔
        parseUsize (stripOneTrailingNewline result.stdout) = some n) ∧
    (get_num_author_commits author target_dir branch_name result =
        .error (.parseError
          (get_num_author_commits_command author target_dir branch_name)) ↔
      parseUsize (stripOneTrailingNewline result.stdout) = none) := by
  unfold get_num_author_commits
  simp only [get_stdout_from_subprocess_or_fail, hs, if_true]
  cases h : parseUsize (stripOneTrailingNewline result.stdout) with
  | none => simp
  | some n => simp

/-- Witness for C4 at the claim's concrete inputs: captured stdout "42\n"
yields 42, and captured stdout "abc\n" yields the annotated parse error. -/
theorem c4_strict_commit_count_parse_witness :
    get_num_author_commits (str "Alice") (str "/repo") (str "main")
        ⟨true, str "42\n", str ""⟩ = .ok 42 ∧
    get_num_author_commits (str "Alice") (str "/repo") (str "main")
        ⟨true, str "abc\n", str ""⟩ =
      .error (.parseError
        (get_num_author_commits_command (str "Alice") (str "/repo")
          (str "main"))) := by
  constructor
  · exact ((c4_strict_commit_count_parse (str "Alice") (str "/repo")
      (str "main") ⟨true, str "42\n", str ""⟩ rfl).1 42).mpr (by decide)
  · exact ((c4_strict_commit_count_parse (str "Alice") (str "/repo")
      (str "main") ⟨true, str "abc\n", str ""⟩ rfl).2).mpr (by decide)



/-- C1 counterexample: a summary output with two count lines for the same
name yields a directory with a duplicate entry, so the Author Directory
result is not deduplicated. -/
theorem c1_counterexample_duplicates_kept :
    get_all_authors_from_stdout (str "1 Alice\n1 Alice") =
      [str "Alice", str "Alice"] ∧
    ¬ (get_all_authors_from_stdout (str "1 Alice\n1 Alice")).Nodup := by
  constructor <;> decide

/-- C1 amended: for every author-summary stdout text the Author Directory
result is sorted ascending (lexicographically by code point, which on UTF-8
text is byte-value order) and consists of exactly one entry per summary
line (the per-line rejoined author name); duplicate count lines for the
same name therefore yield duplicate entries rather than being removed. -/
theorem c1_amended_sorted_one_entry_per_line (stdout : Str) :
    (get_all_authors_from_stdout stdout).Sorted (· ≤ ·) ∧
    (get_all_authors_from_stdout stdout).Perm
      ((rustLines stdout).map lineAuthor) :=
  ⟨List.sorted_insertionSort _ _, List.perm_insertionSort _ _⟩

/-- C9: a summary line consisting of a single whitespace-separated token
(the count, with no author name after it) contributes an empty-string
author entry to the Author Directory result; it is not filtered out. -/
theorem c9_count_only_line_yields_empty_author (stdout l : Str)
    (hm : l ∈ rustLines stdout)
    (h1 : (splitAsciiWhitespace l).length = 1) :
    ([] : Str) ∈ get_all_authors_from_stdout stdout := by
  have ha : lineAuthor l = [] := by
    unfold lineAuthor
    cases h : splitAsciiWhitespace l with
    | nil => rw [h] at h1; simp at h1
    | cons t rest =>
      rw [h] at h1
      simp at h1
      subst h1
      simp [List.intercalate]
  have hmem : ([] : Str) ∈ (rustLines stdout).map lineAuthor :=
    List.mem_map.mpr ⟨l, hm, ha⟩
  unfold get_all_authors_from_stdout
  exact (List.perm_insertionSort _ _).mem_iff.mpr hmem

/-- Witness for C9 at a concrete input: the first line of the summary text
holds only a count token, and the empty-string entry indeed appears in the
result. -/
theorem c9_count_only_line_yields_empty_author_witness :
    ([] : Str) ∈ get_all_authors_from_stdout (str "5\n     1\tAlice") :=
  c9_count_only_line_yields_empty_author (str "5\n     1\tAlice") (str "5")
    (by decide) (by decide)

/-- C2 counterexample: the Author Directory can return the same identity
twice (no dedup), and then the aggregation loop creates one record per list
entry, so two records exist for a single distinct author identity. -/
theorem c2_counterexample_one_record_per_entry :
    get_all_authors_from_stdout (str "1 Alice\n1 Alice") =
      [str "Alice", str "Alice"] ∧
    compileStats (get_all_authors_from_stdout (str "1 Alice\n1 Alice"))
        (fun _ => .ok 1) (fun _ => .ok ⟨5, 2⟩) =
      .ok [⟨str "Alice", ⟨5, 2⟩, 1⟩, ⟨str "Alice", ⟨5, 2⟩, 1⟩] ∧
    ([str "Alice", str "Alice"] : List Str).dedup = [str "Alice"] := by
  refine ⟨by decide, ?_, by decide⟩
  rw [show get_all_authors_from_stdout (str "1 Alice\n1 Alice") =
    [str "Alice", str "Alice"] from by decide]
  rfl

/-- C2 amended: whenever the aggregation loop completes, the names of the
assembled records are exactly the input author list, entry for entry (so no
record is fabricated or dropped, the set of records matches the set of
distinct identities, and zero-commit suppression happens only at display
time; but a duplicated entry yields a duplicated record). -/
theorem c2_amended_records_match_author_list (authors : List Str)
    (commits : Str → Except RunError Nat)
    (edits : Str → Except RunError CodeEdits)
    (records : List AuthorData)
    (h : compileStats authors commits edits = .ok records) :
    records.map AuthorData.author_name = authors := by
  induction authors generalizing records with
  | nil =>
    unfold compileStats at h
    simp only [Except.ok.injEq] at h
    subst h
    rfl
  | cons a rest ih =>
    unfold compileStats at h
    cases hc : commits a with
    | error e => rw [hc] at h; exact absurd h (by simp)
    | ok n =>
      rw [hc] at h
      cases he : edits a with
      | error e => rw [he] at h; exact absurd h (by simp)
      | ok ce =>
        rw [he] at h
        cases ht : compileStats rest commits edits with
        | error e => rw [ht] at h; exact absurd h (by simp)
        | ok tail =>
          rw [ht] at h
          simp only [Except.ok.injEq] at h
          subst h
          simp [ih tail ht]

/-- Witness for C2 (amended) at a concrete input: a two-entry author list
produces records whose names read back as exactly that list. -/
theorem c2_amended_records_match_author_list_witness :
    ([⟨str "Alice", ⟨1, 0⟩, 2⟩, ⟨str "Bob", ⟨0, 3⟩, 0⟩] :
        List AuthorData).map AuthorData.author_name =
      [str "Alice", str "Bob"] :=
  c2_amended_records_match_author_list [str "Alice", str "Bob"]
    (fun a => if a = str "Alice" then .ok 2 else .ok 0)
    (fun a => if a = str "Alice" then .ok ⟨1, 0⟩ else .ok ⟨0, 3⟩)
    [⟨str "Alice", ⟨1, 0⟩, 2⟩, ⟨str "Bob", ⟨0, 3⟩, 0⟩] rfl



lemma filter_orderedInsert_byCommits (c : Nat) (a : AuthorData)
    (l : List AuthorData) :
    (l.orderedInsert byCommitsDesc a).filter
        (fun x => decide (x.num_commits = c)) =
      if a.num_commits = c then
        a :: l.filter (fun x => decide (x.num_commits = c))
      else l.filter (fun x => decide (x.num_commits = c)) := by
  induction l with
  | nil =>
    by_cases hac : a.num_commits = c <;>
      simp [List.orderedInsert, List.filter, hac]
  | cons b l ih =>
    rw [List.orderedInsert]
    by_cases hab : byCommitsDesc a b
    · rw [if_pos hab]
      by_cases hac : a.num_commits = c <;> simp [List.filter_cons, hac]
    · rw [if_neg hab]
      have hlt : a.num_commits < b.num_commits := by
        unfold byCommitsDesc at hab
        omega
      by_cases hac : a.num_commits = c <;> by_cases hbc : b.num_commits = c
      · omega
      · simp [List.filter_cons, hac, hbc, ih]
      · simp [List.filter_cons, hac, hbc, ih]
      · simp [List.filter_cons, hac, hbc, ih]

lemma filter_insertionSort_byCommits (c : Nat) (l : List AuthorData) :
    (l.insertionSort byCommitsDesc).filter
        (fun x => decide (x.num_commits = c)) =
      l.filter (fun x => decide (x.num_commits = c)) := by
  induction l with
  | nil => rfl
  | cons a l ih =>
    rw [List.insertionSort, filter_orderedInsert_byCommits]
    by_cases hac : a.num_commits = c <;> simp [List.filter_cons, hac, ih]

/-- C5: the Report Aggregator's sort returns a permutation of its input that
is sorted non-increasing in commit count, and the sort is stable keyed only
on commit count: for every commit count value, the records carrying that
count appear in the output in exactly their input order. -/
theorem c5_stable_descending_sort_by_commits (l : List AuthorData) :
    (sortAuthorsData l).Perm l ∧
    (sortAuthorsData l).Sorted byCommitsDesc ∧
    ∀ c : Nat,
      (sortAuthorsData l).filter (fun x => decide (x.num_commits = c)) =
        l.filter (fun x => decide (x.num_commits = c)) :=
  ⟨List.perm_insertionSort _ _, List.sorted_insertionSort _ _,
    fun c => filter_insertionSort_byCommits c l⟩

lemma append_merge_one_commit (t : Str) :
    str " has made " ++ (str "1 commit" ++ (str ": " ++ t)) =
      str " has made 1 commit: " ++ t := by
  rw [← List.append_assoc, ← List.append_assoc]
  rw [show (str " has made " ++ str "1 commit") ++ str ": " =
    str " has made 1 commit: " from by decide]

lemma append_merge_commits (t : Str) :
    str " commits" ++ (str ": " ++ t) = str " commits: " ++ t := by
  rw [← List.append_assoc]
  rw [show str " commits" ++ str ": " = str " commits: " from by decide]

/-- C6: a record with zero commits produces no output line; a record with
exactly one commit produces the single line with the singular "1 commit"
segment; a record with two or more commits produces the single line with the
plural "N commits" segment; in each emitted case the line reads
name, " has made ", the count segment, ": ", then the additions and removals
counts in the Display format of CodeEdits. -/
theorem c6_render_zero_skip_and_exact_pluralization (a : AuthorData) :
    (a.num_commits = 0 → renderAuthorLine a = none) ∧
    (a.num_commits = 1 → renderAuthorLine a =
      some (a.author_name ++ str " has made 1 commit: " ++
        str (Nat.repr a.code_edits.additions) ++ str " additions and " ++
        str (Nat.repr a.code_edits.removals) ++ str " removals")) ∧
    (2 ≤ a.num_commits → renderAuthorLine a =
      some (a.author_name ++ str " has made " ++
        str (Nat.repr a.num_commits) ++ str " commits: " ++
        str (Nat.repr a.code_edits.additions) ++ str " additions and " ++
        str (Nat.repr a.code_edits.removals) ++ str " removals")) := by
  refine ⟨?_, ?_, ?_⟩
  · intro h
    unfold renderAuthorLine
    rw [h]
    rfl
  · intro h
    unfold renderAuthorLine
    rw [h, show commitsEnding 1 = some (str "1 commit") from rfl]
    unfold codeEditsDisplay
    simp only [Option.map_some', List.append_assoc]
    rw [append_merge_one_commit]
  · intro h
    obtain ⟨k, hk⟩ : ∃ k, a.num_commits = k + 2 :=
      ⟨a.num_commits - 2, by omega⟩
    unfold renderAuthorLine
    rw [hk, show commitsEnding (k + 2) =
      some (str (Nat.repr (k + 2)) ++ str " commits") from rfl]
    unfold codeEditsDisplay
    simp only [Option.map_some', List.append_assoc]
    rw [append_merge_commits]

/-- Witness for C6 at concrete records: zero commits render nothing, one
commit renders the singular line, five commits render the plural line. -/
theorem c6_render_zero_skip_and_exact_pluralization_witness :
    renderAuthorLine ⟨str "Bob", ⟨1, 2⟩, 0⟩ = none ∧
    renderAuthorLine ⟨str "Alice", ⟨10, 2⟩, 1⟩ =
      some (str "Alice" ++ str " has made 1 commit: " ++
        str (Nat.repr (10 : Nat)) ++ str " additions and " ++
        str (Nat.repr (2 : Nat)) ++ str " removals") ∧
    renderAuthorLine ⟨str "Alice", ⟨10, 2⟩, 5⟩ =
      some (str "Alice" ++ str " has made " ++ str (Nat.repr (5 : Nat)) ++
        str " commits: " ++ str (Nat.repr (10 : Nat)) ++
        str " additions and " ++ str (Nat.repr (2 : Nat)) ++
        str " removals") :=
  ⟨(c6_render_zero_skip_and_exact_pluralization ⟨str "Bob", ⟨1, 2⟩, 0⟩).1 rfl,
   (c6_render_zero_skip_and_exact_pluralization
     ⟨str "Alice", ⟨10, 2⟩, 1⟩).2.1 rfl,
   (c6_render_zero_skip_and_exact_pluralization
     ⟨str "Alice", ⟨10, 2⟩, 5⟩).2.2 (by decide)⟩

lemma length_le_flatten_ansiCEscape (s : Str) :
    s.length ≤ ((s.map ansiCEscape).flatten).length := by
  induction s with
  | nil => simp
  | cons c cs ih =>
    simp only [List.map_cons, List.flatten_cons, List.length_append,
      List.length_cons]
    have h1 : 1 ≤ (ansiCEscape c).length := by
      unfold ansiCEscape
      split_ifs <;> simp
    omega

lemma bashQuote_ne_of_unsafe {s : Str}
    (h : ∃ c ∈ s, isBashSafeChar c = false) : bashQuote s ≠ s := by
  obtain ⟨c, hc, hcf⟩ := h
  have hne : s ≠ [] := by
    intro e
    subst e
    simp at hc
  have hall : ¬ (s.all isBashSafeChar = true) := by
    simp only [List.all_eq_true]
    intro hx
    rw [hx c hc] at hcf
    cases hcf
  unfold bashQuote
  rw [if_neg hne, if_neg hall]
  intro he
  have hlen := congrArg List.length he
  simp only [List.length_cons, List.length_append, List.length_singleton]
    at hlen
  have hfl := length_le_flatten_ansiCEscape s
  omega

/-- C10: in all three constructed shell command strings, the target
directory appears verbatim as a contiguous segment (so every character of
it, spaces and shell metacharacters included, appears unescaped in the
command handed to the shell), while the author name and the branch selector
are interpolated only through the Bash escaper, which never leaves a string
containing an unsafe character unchanged. -/
theorem c10_dir_verbatim_but_args_escaped (target_dir branch_name author : Str) :
    (∃ pre post, get_all_authors_command target_dir branch_name =
      pre ++ target_dir ++ post) ∧
    (∃ pre post, get_num_author_commits_command author target_dir branch_name =
      pre ++ target_dir ++ post) ∧
    (∃ pre post, get_num_author_edits_command author target_dir branch_name =
      pre ++ target_dir ++ post) ∧
    (∀ c ∈ target_dir,
      c ∈ get_all_authors_command target_dir branch_name ∧
      c ∈ get_num_author_commits_command author target_dir branch_name ∧
      c ∈ get_num_author_edits_command author target_dir branch_name) ∧
    (∃ pre post, get_all_authors_command target_dir branch_name =
      pre ++ bashQuote branch_name ++ post) ∧
    (∃ pre post, get_num_author_commits_command author target_dir branch_name =
      pre ++ bashQuote author ++ post) ∧
    (∃ pre post, get_num_author_edits_command author target_dir branch_name =
      pre ++ bashQuote author ++ post) ∧
    (∀ s : Str, (∃ c ∈ s, isBashSafeChar c = false) → bashQuote s ≠ s) := by
  refine ⟨?_, ?_, ?_, ?_, ?_, ?_, ?_, fun s h => bashQuote_ne_of_unsafe h⟩
  · exact ⟨str "git -C ",
      str " shortlog --summary --numbered --no-merges --all --branches=" ++
        bashQuote branch_name,
      by simp [get_all_authors_command, List.append_assoc]⟩
  · exact ⟨str "git -C ",
      str " rev-list HEAD --author=" ++ bashQuote author ++
        str " --count --branches=" ++ bashQuote branch_name,
      by simp [get_num_author_commits_command, List.append_assoc]⟩
  · exact ⟨str "git -C ",
      str " log --author=" ++ bashQuote author ++
        str " --numstat --pretty=tformat: --branches=" ++
        bashQuote branch_name ++ str " --all",
      by simp [get_num_author_edits_command, List.append_assoc]⟩
  · intro c hc
    refine ⟨?_, ?_, ?_⟩
    · simp [get_all_authors_command, List.mem_append, hc]
    · simp [get_num_author_commits_command, List.mem_append, hc]
    · simp [get_num_author_edits_command, List.mem_append, hc]
  · exact ⟨str "git -C " ++ target_dir ++
      str " shortlog --summary --numbered --no-merges --all --branches=",
      [], by simp [get_all_authors_command, List.append_assoc]⟩
  · exact ⟨str "git -C " ++ target_dir ++ str " rev-list HEAD --author=",
      str " --count --branches=" ++ bashQuote branch_name,
      by simp [get_num_author_commits_command, List.append_assoc]⟩
  · exact ⟨str "git -C " ++ target_dir ++ str " log --author=",
      str " --numstat --pretty=tformat: --branches=" ++
        bashQuote branch_name ++ str " --all",
      by simp [get_num_author_edits_command, List.append_assoc]⟩

/-- Witness for C10 at concrete inputs: a target directory containing a
space and a semicolon has its space appear in all three commands, while an
author name containing a space is altered by the escaper. -/
theorem c10_dir_verbatim_but_args_escaped_witness :
    (' ' ∈ get_all_authors_command (str "/tmp/my repo;x") (str "main") ∧
     ' ' ∈ get_num_author_commits_command (str "Jane Doe")
       (str "/tmp/my repo;x") (str "main") ∧
     ' ' ∈ get_num_author_edits_command (str "Jane Doe")
       (str "/tmp/my repo;x") (str "main")) ∧
    bashQuote (str "Jane Doe") ≠ str "Jane Doe" := by
  have h := c10_dir_verbatim_but_args_escaped (str "/tmp/my repo;x")
    (str "main") (str "Jane Doe")
  exact ⟨h.2.2.2.1 ' ' (by decide),
    h.2.2.2.2.2.2.2 (str "Jane Doe") ⟨' ', by decide, by decide⟩⟩


end WhosDoneThat
